import Mathlib

set_option linter.unusedVariables false

/-!
Shallow embedding of the stock-diversification notebook: a five-stage
pipeline of Cypher queries over a property graph (ingestion, Pearson
similarity, Louvain communities, trend slopes, recommendation).
Machine floats of the reference system are modelled by rationals; the
external GDS and APOC procedures are modelled from their contracts where
stated below.
-/

namespace StockDiv

/-- A CSV row as the ingestion query sees it after Cypher evaluation:
name is the ticker symbol column; date is the result of applying the Cypher
date function to the Date column, none when the text is unparsable (the
date function raises an error in that case); close and volume are the
results of toFloat, which returns null (none) on non-numeric text. -/
structure CsvRow where
  name : String
  date : Option Int
  close : Option ℚ
  volume : Option ℚ
deriving DecidableEq

/-- A StockTradingDay node created by the ingestion query, together with the
Stock it hangs off via the TRADING_DAY relationship. -/
structure DayNode where
  owner : String
  date : Int
  close : Option ℚ
  volume : Option ℚ
deriving DecidableEq

/-- The part of the database state the ingestion query touches: the Stock
nodes (identified by name, the MERGE key) and the StockTradingDay nodes. -/
structure GraphSt where
  stocks : List String
  days : List DayNode
deriving DecidableEq

/-- One row of the LOAD CSV ingestion query: MERGE the Stock node on name,
then CREATE a fresh StockTradingDay node unconditionally. An unparsable
date makes the Cypher date function raise, failing the whole query. -/
def ingestRow (g : GraphSt) (row : CsvRow) : Except String GraphSt :=
  match row.date with
  | none => Except.error "InvalidArgumentException: date"
  | some d =>
    Except.ok
      { stocks := if row.name ∈ g.stocks then g.stocks else g.stocks ++ [row.name]
        days := g.days ++ [⟨row.name, d, row.close, row.volume⟩] }

/-- The ingestion query over all CSV rows, in row order; the first row whose
date fails to parse aborts the load. -/
def ingest (g : GraphSt) : List CsvRow → Except String GraphSt
  | [] => Except.ok g
  | row :: rest =>
    match ingestRow g row with
    | Except.error e => Except.error e
    | Except.ok g2 => ingest g2 rest

/-- A trading-day record in the analysis stages: date, close and volume as
ingested; index and the per-ticker secondary label are written by the
stage-4 preparation queries and are absent right after ingestion. -/
structure TDay where
  date : Int
  close : ℚ
  volume : ℚ
  index : Option Nat := none
  secondLabel : Option String := none
deriving DecidableEq

/-- A Stock node with its trading days and the derived properties written by
the later stages (close_array, louvain, slope), absent right after
ingestion. -/
structure SStock where
  name : String
  days : List TDay
  close_array : Option (List ℚ) := none
  louvain : Option Nat := none
  slope : Option ℚ := none
deriving DecidableEq

instance : DecidableRel (fun a b : TDay => a.date ≤ b.date) :=
  fun a b => inferInstanceAs (Decidable (a.date ≤ b.date))

instance : IsTotal TDay (fun a b => a.date ≤ b.date) :=
  ⟨fun a b => le_total a.date b.date⟩

instance : IsTrans TDay (fun a b => a.date ≤ b.date) :=
  ⟨fun _ _ _ h1 h2 => le_trans h1 h2⟩

/-- ORDER BY day.date ASC over a stock's trading days (a stable sort; the
incoming row order of MATCH is unspecified and is taken as the list
order). -/
def sortDays (days : List TDay) : List TDay :=
  List.insertionSort (fun a b => a.date ≤ b.date) days

/-- The closes list collected by the linked-list query: closing prices in
day.date ASC order. -/
def closeArray (days : List TDay) : List ℚ :=
  (sortDays days).map (fun d => d.close)

/-- The stage-2 preparation query: SET s.close_array = closes, where closes
was collected in date-ascending order (the same query also links the day
nodes into a NEXT_DAY chain in that order). -/
def linkStage (stocks : List SStock) : List SStock :=
  stocks.map (fun s => { s with close_array := some (closeArray s.days) })

/-- Sum of a list of rationals. -/
def sumQ (l : List ℚ) : ℚ := l.foldr (fun a b => a + b) 0

/-- Dot product of two lists of rationals over their common positions. -/
def dotQ (xs ys : List ℚ) : ℚ := sumQ (List.zipWith (fun a b => a * b) xs ys)

/-- The scaled variance term n * sum of squares - (sum)^2 of a vector. -/
def varTerm (xs : List ℚ) : ℚ := (xs.length : ℚ) * dotQ xs xs - (sumQ xs) ^ 2

/-- The scaled covariance term n * sum xy - sum x * sum y over the common
positions of the two vectors. -/
def covTerm (xs ys : List ℚ) : ℚ :=
  (List.length (xs.take ys.length) : ℚ) * dotQ xs ys -
    sumQ (xs.take ys.length) * sumQ (ys.take xs.length)

/-- Modelled from the spec: the Pearson similarity procedure of the graph
library is external to this repository; the spec gives its contract as the
pairwise Pearson correlation of the two weight vectors, position by
position, an edge being kept when the absolute correlation is at least the
cutoff. Encoded over rationals without square roots: the absolute
correlation is at least c iff both variance terms are positive and the
squared covariance term is at least c^2 times their product. -/
def pearsonAbsGe (cutoff : ℚ) (xs ys : List ℚ) : Bool :=
  decide (0 < varTerm (xs.take ys.length) * varTerm (ys.take xs.length) ∧
    cutoff ^ 2 * (varTerm (xs.take ys.length) * varTerm (ys.take xs.length)) ≤
      (covTerm xs ys) ^ 2)

/-- Modelled from the spec: the squared Pearson correlation between two
weight vectors as a rational (0 when undefined), ranking a ticker's peers
by correlation magnitude. -/
def r2 (xs ys : List ℚ) : ℚ :=
  (covTerm xs ys) ^ 2 /
    (varTerm (xs.take ys.length) * varTerm (ys.take xs.length))

/-- One element of the input collection handed to the similarity procedure:
the projection of a stock to its id and its stored close_array. -/
structure SimItem where
  item : String
  weights : List ℚ
deriving DecidableEq

/-- The projection query feeding the similarity procedure: every stock
becomes an item carrying its stored close_array (empty when absent). -/
def simInput (stocks : List SStock) : List SimItem :=
  stocks.map (fun s => ⟨s.name, s.close_array.getD []⟩)

/-- Lexicographic comparison of character lists by code point. -/
def chListLe : List Char → List Char → Bool
  | [], _ => true
  | _ :: _, [] => false
  | a :: as, b :: bs =>
    if a.val.toNat < b.val.toNat then true
    else if b.val.toNat < a.val.toNat then false
    else chListLe as bs

/-- Lexicographic comparison of strings by code point. -/
def strLe (a b : String) : Bool := chListLe a.data b.data

/-- Modelled from the spec: peer ranking for the external top-K selection,
higher correlation magnitude first, ties by lexicographically smaller
name first. -/
def peerLe (s : SimItem) (a b : SimItem) : Prop :=
  r2 s.weights b.weights < r2 s.weights a.weights ∨
    (r2 s.weights b.weights = r2 s.weights a.weights ∧ strLe a.item b.item = true)

instance (s : SimItem) : DecidableRel (peerLe s) :=
  fun a b =>
    inferInstanceAs (Decidable (r2 s.weights b.weights < r2 s.weights a.weights ∨
      (r2 s.weights b.weights = r2 s.weights a.weights ∧ strLe a.item b.item = true)))

/-- Modelled from the spec: for ticker s the external similarity procedure
keeps its topK highest-magnitude correlated peers whose absolute
coefficient is at least the cutoff, excluding s itself. -/
def topKPeers (topK : Nat) (cutoff : ℚ) (all : List SimItem) (s : SimItem) :
    List SimItem :=
  (List.insertionSort (peerLe s)
    (all.filter (fun t => t.item != s.item && pearsonAbsGe cutoff s.weights t.weights))).take
    topK

/-- The SIMILAR relationships written by the similarity stage: for every
ticker, one edge to each of its kept top-K peers. -/
def simEdges (topK : Nat) (cutoff : ℚ) (all : List SimItem) :
    List (String × String) :=
  all.flatMap (fun s => (topKPeers topK cutoff all s).map (fun t => (s.item, t.item)))

/-- The two tickers share no trading date. -/
def disjointDates (a b : SStock) : Bool :=
  (a.days.map (fun d => d.date)).all
    (fun x => (b.days.map (fun d => d.date)).all (fun y => x != y))

/-- The first stage-4 preparation query: the addLabels procedure adds the
owning stock's name as a secondary label on each of its day nodes. -/
def addLabelsStage (stocks : List SStock) : List SStock :=
  stocks.map (fun s =>
    { s with days := s.days.map (fun d => { d with secondLabel := some s.name }) })

/-- Walking a NEXT_DAY chain and writing each node's distance from the chain
head into its index property (the variable-length-path query sets the
index of every node reachable from the head to the length of that path). -/
def assignIdx : Nat → List TDay → List TDay
  | _, [] => []
  | i, d :: ds => { d with index := some i } :: assignIdx (i + 1) ds

/-- The second stage-4 preparation query: indices 0, 1, 2, ... along the
date-ascending NEXT_DAY chain of a stock. -/
def indexDays (days : List TDay) : List TDay :=
  assignIdx 0 (sortDays days)

/-- The index-assignment query applied to every stock. -/
def indexStage (stocks : List SStock) : List SStock :=
  stocks.map (fun s => { s with days := indexDays s.days })

/-- The Louvain write call: the community assignment itself is computed by an
external procedure, taken here as the parameter comm; the stage's own
effect is to write exactly the louvain property on every stock. -/
def louvainStage (comm : String → Nat) (stocks : List SStock) : List SStock :=
  stocks.map (fun s => { s with louvain := some (comm s.name) })

/-- The regression points of a day list: (index, close), with index read from
the stored index property (0 when absent). -/
def regrPoints (days : List TDay) : List (ℚ × ℚ) :=
  days.map (fun d => (((d.index.getD 0 : Nat) : ℚ), d.close))

/-- Modelled from the spec: the regression procedure of the utility library
is external to this repository; the spec gives its contract as the
ordinary least-squares slope of close against index. When the variance
term of the x values is zero (in particular with fewer than two points)
the slope is undefined: none here, the NaN of the real procedure. -/
def regrSlope (pts : List (ℚ × ℚ)) : Option ℚ :=
  let xs := pts.map Prod.fst
  let ys := pts.map Prod.snd
  if varTerm xs = 0 then none else some (covTerm xs ys / varTerm xs)

/-- The trend-scoring query: call the regression procedure per stock and SET
s.slope to its result. Only the slope property is written; the query has
no flag, exclusion mark or error report. -/
def trendStage (stocks : List SStock) : List SStock :=
  stocks.map (fun s => { s with slope := regrSlope (regrPoints s.days) })

/-- Stages 2 to 5 after ingestion, composed in notebook order: linked list
plus close_array, similarity write (which only creates SIMILAR
relationships and does not touch these records), Louvain write, the two
stage-4 preparation queries, trend scoring. -/
def pipelineAfterIngest (comm : String → Nat) (stocks : List SStock) :
    List SStock :=
  trendStage (indexStage (addLabelsStage (louvainStage comm (linkStage stocks))))

/-- A row of the final query: community, slope and ticker per stock. -/
structure RecRow where
  community : Nat
  slope : ℚ
  ticker : String
deriving DecidableEq

instance : DecidableRel (fun a b : RecRow => b.slope ≤ a.slope) :=
  fun a b => inferInstanceAs (Decidable (b.slope ≤ a.slope))

instance : IsTotal RecRow (fun a b => b.slope ≤ a.slope) :=
  ⟨fun a b => le_total b.slope a.slope⟩

instance : IsTrans RecRow (fun a b => b.slope ≤ a.slope) :=
  ⟨fun _ _ _ h1 h2 => le_trans h2 h1⟩

/-- ORDER BY slope DESC: a stable sort on slope only, ties left in the
(unspecified) incoming row order. -/
def sortRows (rows : List RecRow) : List RecRow :=
  List.insertionSort (fun a b => b.slope ≤ a.slope) rows

/-- The distinct grouping keys of the aggregation, in order of first
appearance. -/
def firstSeen : List Nat → List Nat
  | [] => []
  | c :: cs => c :: (firstSeen cs).filter (fun x => x != c)

/-- The slope-sorted rows of one community group. -/
def communityRows (rows : List RecRow) (c : Nat) : List RecRow :=
  (sortRows rows).filter (fun r => r.community == c)

/-- The final query: order rows by slope descending, group by community,
collect the tickers of each group in that order and truncate to the first
three. -/
def recommend (rows : List RecRow) : List (Nat × List String) :=
  (firstSeen ((sortRows rows).map (fun r => r.community))).map
    (fun c => (c, ((communityRows rows c).take 3).map (fun r => r.ticker)))

/-- The recommendation ordering as the spec words it: slope descending with
ties broken by ticker symbol ascending. This follows the words of the
spec, not the query, for comparison with the query ordering. -/
def specRowLe (a b : RecRow) : Prop :=
  b.slope < a.slope ∨ (a.slope = b.slope ∧ strLe a.ticker b.ticker = true)

instance : DecidableRel specRowLe :=
  fun a b =>
    inferInstanceAs (Decidable (b.slope < a.slope ∨
      (a.slope = b.slope ∧ strLe a.ticker b.ticker = true)))

/-- The recommendation stage as the spec words it: like the query, but
sorting with the symbol tie-break. -/
def recommendSpec (rows : List RecRow) : List (Nat × List String) :=
  (firstSeen ((List.insertionSort specRowLe rows).map (fun r => r.community))).map
    (fun c =>
      (c, (((List.insertionSort specRowLe rows).filter (fun r => r.community == c)).take 3).map
        (fun r => r.ticker)))

/-- Concrete rows for the recommendation stage: two communities, a slope tie
inside community 0. -/
def c1rows : List RecRow :=
  [⟨0, 2, "A"⟩, ⟨0, 1, "B"⟩, ⟨1, 3, "C"⟩, ⟨0, 1, "D"⟩, ⟨0, 0, "E"⟩]

/-- A ticker trading on dates 1, 2, 3. -/
def c2A : SStock :=
  { name := "AAA",
    days := [{ date := 1, close := 1, volume := 1 },
             { date := 2, close := 2, volume := 1 },
             { date := 3, close := 3, volume := 1 }] }

/-- A ticker trading on dates 10, 11, 12: no date in common with c2A, yet its
close array is positionally proportional to that of c2A. -/
def c2B : SStock :=
  { name := "BBB",
    days := [{ date := 10, close := 2, volume := 1 },
             { date := 11, close := 4, volume := 1 },
             { date := 12, close := 6, volume := 1 }] }

/-- Concrete similarity items: three weight vectors. -/
def c3A : SimItem := ⟨"AAA", [1, 2, 3]⟩

/-- Second similarity item. -/
def c3B : SimItem := ⟨"BBB", [2, 4, 6]⟩

/-- Third similarity item: a constant price series, whose variance term is
zero, so it passes no cutoff test. -/
def c3C : SimItem := ⟨"CCC", [1, 1, 1]⟩

/-- The concrete similarity input universe. -/
def c3items : List SimItem := [c3A, c3B, c3C]

/-- Concrete unsorted trading days with distinct dates. -/
def c4days : List TDay :=
  [{ date := 9, close := 5, volume := 1 },
   { date := 3, close := 2, volume := 1 },
   { date := 7, close := 4, volume := 1 }]

/-- Concrete CSV rows: the second row has a non-numeric close (toFloat gives
null), both rows carry the same ticker and date. -/
def c5rows : List CsvRow :=
  [⟨"A", some 1, some 5, some 7⟩, ⟨"A", some 1, none, some 7⟩]

/-- A stock with a single trading day. -/
def c6stock : SStock :=
  { name := "X", days := [{ date := 1, close := 5, volume := 2, index := some 0 }] }

/-- A stock as it stands right after ingestion: one trading day, no derived
properties. -/
def c8stock : SStock := { name := "Z", days := [{ date := 3, close := 1, volume := 1 }] }

/-- Two identical CSV rows: same ticker, same date. -/
def c10rows : List CsvRow :=
  [⟨"A", some 1, some 2, some 3⟩, ⟨"A", some 1, some 2, some 3⟩]

/-- The graph state after ingesting c10rows into an empty graph: one Stock,
two StockTradingDay nodes. -/
def c10g1 : GraphSt :=
  ⟨["A"], [⟨"A", 1, some 2, some 3⟩, ⟨"A", 1, some 2, some 3⟩]⟩

/-- A concrete stock with unsorted trading days. -/
def c9s1 : SStock :=
  { name := "P", days := [{ date := 5, close := 9, volume := 1 },
                          { date := 2, close := 4, volume := 1 }] }

/-- A second concrete stock. -/
def c9s2 : SStock :=
  { name := "Q", days := [{ date := 1, close := 3, volume := 1 }] }

/-- Concrete stocks feeding the stage-2 preparation. -/
def c9stocks : List SStock := [c9s1, c9s2]

/-! Helper lemmas. -/

theorem mem_firstSeen : ∀ (l : List Nat) (x : Nat), x ∈ firstSeen l ↔ x ∈ l
  | [], x => by simp [firstSeen]
  | c :: cs, x => by
    simp only [firstSeen, List.mem_cons, List.mem_filter]
    constructor
    · rintro (rfl | ⟨h, _⟩)
      · exact Or.inl rfl
      · exact Or.inr ((mem_firstSeen cs x).1 h)
    · rintro (rfl | h)
      · exact Or.inl rfl
      · by_cases hx : x = c
        · exact Or.inl hx
        · exact Or.inr ⟨(mem_firstSeen cs x).2 h, by simp [bne_iff_ne, hx]⟩

theorem sortDays_perm (days : List TDay) : List.Perm (sortDays days) days :=
  List.perm_insertionSort _ days

theorem sortDays_length (days : List TDay) : (sortDays days).length = days.length :=
  (sortDays_perm days).length_eq

theorem sortRows_perm (rows : List RecRow) : List.Perm (sortRows rows) rows :=
  List.perm_insertionSort _ rows

theorem assignIdx_map_index : ∀ (i : Nat) (l : List TDay),
    (assignIdx i l).map (fun d => d.index) = (List.range' i l.length).map some
  | _, [] => rfl
  | i, d :: ds => by
    simp [assignIdx, List.range', assignIdx_map_index (i + 1) ds]

theorem assignIdx_map_date : ∀ (i : Nat) (l : List TDay),
    (assignIdx i l).map (fun d => d.date) = l.map (fun d => d.date)
  | _, [] => rfl
  | i, d :: ds => by simp [assignIdx, assignIdx_map_date (i + 1) ds]

theorem assignIdx_map_core : ∀ (i : Nat) (l : List TDay),
    (assignIdx i l).map (fun d => (d.date, d.close, d.volume)) =
      l.map (fun d => (d.date, d.close, d.volume))
  | _, [] => rfl
  | i, d :: ds => by simp [assignIdx, assignIdx_map_core (i + 1) ds]

/-! C1: the recommendation stage. The query orders by slope only, so the
claimed symbol-ascending tie-break does not hold; the rest of the claim
does. -/

/-- C1 counterexample: two rows in community 0 with equal slope, tickers B
then A in row order. The query keeps the tie in row order, so B precedes
A, while the spec wording (ties broken by symbol ascending) puts A first;
the two orderings disagree on this input. -/
theorem c1_counterexample :
    recommend [⟨0, 1, "B"⟩, ⟨0, 1, "A"⟩] = [(0, ["B", "A"])] ∧
      recommendSpec [⟨0, 1, "B"⟩, ⟨0, 1, "A"⟩] = [(0, ["A", "B"])] ∧
      recommend [⟨0, 1, "B"⟩, ⟨0, 1, "A"⟩] ≠ recommendSpec [⟨0, 1, "B"⟩, ⟨0, 1, "A"⟩] := by
  refine ⟨by decide, by decide, by decide⟩

/-- C1 (amended): the recommendation stage groups rows by communityId; each
output list is the first at most three tickers of its community's rows
sorted by slope descending (ties left in the unspecified incoming row
order, with no symbol tie-break); each list has at most three entries, no
duplicate tickers when the input tickers are distinct, non-increasing
slopes along the list, and only tickers of its own community. -/
theorem c1_recommend_amended (rows : List RecRow) (c : Nat) (ts : List String)
    (hnd : (rows.map (fun r => r.ticker)).Nodup)
    (hmem : (c, ts) ∈ recommend rows) :
    ts.length ≤ 3 ∧ ts.Nodup ∧
      ts = ((communityRows rows c).take 3).map (fun r => r.ticker) ∧
      (((communityRows rows c).take 3).map (fun r => r.slope)).Pairwise
        (fun a b => b ≤ a) ∧
      ∀ t ∈ ts, ∃ r, r ∈ rows ∧ r.ticker = t ∧ r.community = c := by
  obtain ⟨c2, hc2, heq⟩ := List.mem_map.1 hmem
  simp only [Prod.mk.injEq] at heq
  obtain ⟨hceq, htseq⟩ := heq
  subst htseq
  subst hceq
  have hperm : List.Perm (sortRows rows) rows := sortRows_perm rows
  have hsor : (sortRows rows).Pairwise (fun a b => b.slope ≤ a.slope) :=
    List.sorted_insertionSort _ rows
  refine ⟨?_, ?_, rfl, ?_, ?_⟩
  · rw [List.length_map, List.length_take]
    exact min_le_left _ _
  · have h1 : ((sortRows rows).map (fun r => r.ticker)).Nodup :=
      ((hperm.map _).nodup_iff).2 hnd
    have h2 : List.Sublist (((communityRows rows c2).take 3).map (fun r => r.ticker))
        ((sortRows rows).map (fun r => r.ticker)) :=
      List.Sublist.map _ ((List.take_sublist _ _).trans (List.filter_sublist _))
    exact h2.nodup h1
  · exact List.pairwise_map.2
      (List.Pairwise.sublist (List.take_sublist _ _) (hsor.filter _))
  · intro t ht
    obtain ⟨r, hr, hrt⟩ := List.mem_map.1 ht
    have hr2 := (List.take_sublist _ _).subset hr
    have hr3 := List.mem_filter.1 hr2
    exact ⟨r, hperm.subset hr3.1, hrt, by simpa using hr3.2⟩

/-- C1 witness: the amended statement evaluated on c1rows at community 0,
whose output list is A, B, D. -/
theorem c1_recommend_amended_witness :
    (["A", "B", "D"] : List String).length ≤ 3 ∧
      (["A", "B", "D"] : List String).Nodup ∧
      ["A", "B", "D"] = ((communityRows c1rows 0).take 3).map (fun r => r.ticker) ∧
      (((communityRows c1rows 0).take 3).map (fun r => r.slope)).Pairwise
        (fun a b => b ≤ a) := by
  have h := c1_recommend_amended c1rows 0 ["A", "B", "D"] (by decide) (by decide)
  exact ⟨h.1, h.2.1, h.2.2.1, h.2.2.2.1⟩

/-! C4: index assignment along the date-ascending chain. -/

/-- C4: for a ticker with a valid non-empty input (distinct dates), the
TradingDay index values after the chain walk are exactly 0..n-1 in chain
order, with no gaps, and the dates are strictly increasing along that
order. -/
theorem c4_indices_contiguous (days : List TDay) (hne : days ≠ [])
    (hnd : (days.map (fun d => d.date)).Nodup) :
    (indexDays days).map (fun d => d.index) = (List.range days.length).map some ∧
      (indexDays days).Pairwise (fun a b => a.date < b.date) := by
  constructor
  · rw [indexDays, assignIdx_map_index, sortDays_length, List.range_eq_range']
  · have hsorted : (sortDays days).Pairwise (fun a b => a.date ≤ b.date) :=
      List.sorted_insertionSort _ days
    have hperm : List.Perm (sortDays days) days := sortDays_perm days
    have hnd2 : ((sortDays days).map (fun d => d.date)).Nodup :=
      ((hperm.map _).nodup_iff).2 hnd
    have hne2 : (sortDays days).Pairwise (fun a b => a.date ≠ b.date) :=
      List.pairwise_map.1 hnd2
    have hlt : (sortDays days).Pairwise (fun a b => a.date < b.date) :=
      (hsorted.and hne2).imp (fun h => lt_of_le_of_ne h.1 h.2)
    have hmapped : ((sortDays days).map (fun d => d.date)).Pairwise (fun a b => a < b) :=
      List.pairwise_map.2 hlt
    rw [indexDays]
    have hmapped2 : ((assignIdx 0 (sortDays days)).map (fun d => d.date)).Pairwise
        (fun a b => a < b) := by
      rw [assignIdx_map_date]
      exact hmapped
    exact List.pairwise_map.1 hmapped2

/-- C4 witness: the index invariant evaluated on three concrete unsorted
days with distinct dates. -/
theorem c4_indices_contiguous_witness :
    c4days ≠ [] ∧ (c4days.map (fun d => d.date)).Nodup ∧
      ((indexDays c4days).map (fun d => d.index) =
          (List.range c4days.length).map some ∧
        (indexDays c4days).Pairwise (fun a b => a.date < b.date)) :=
  ⟨by decide, by decide, c4_indices_contiguous c4days (by decide) (by decide)⟩

/-! C2: the similarity stage is positional, not date-aligned. -/

/-- Two-ticker universe: the kept peers of the first ticker are exactly the
second one whenever the names differ and the positional correlation test
passes; dates play no role. -/
theorem topKPeers_pair (topK : Nat) (cutoff : ℚ) (hk : 1 ≤ topK) (sa sb : SimItem)
    (hab : sb.item ≠ sa.item)
    (hcorr : pearsonAbsGe cutoff sa.weights sb.weights = true) :
    topKPeers topK cutoff [sa, sb] sa = [sb] := by
  cases topK with
  | zero => exact absurd hk (by omega)
  | succ n =>
    rw [topKPeers, List.filter_cons, List.filter_cons]
    simp [bne_self_eq_false, bne_iff_ne, hab, hcorr, List.insertionSort, List.orderedInsert]

/-- Any kept peer of a member of the universe yields a SIMILAR edge. -/
theorem mem_simEdges_of (topK : Nat) (cutoff : ℚ) (all : List SimItem)
    (s t : SimItem) (hs : s ∈ all) (ht : t ∈ topKPeers topK cutoff all s) :
    (s.item, t.item) ∈ simEdges topK cutoff all :=
  List.mem_flatMap.2 ⟨s, hs, List.mem_map_of_mem _ ht⟩

/-- C2 counterexample: tickers AAA (dates 1, 2, 3) and BBB (dates 10, 11, 12)
share no trading date, yet the similarity stage still produces an edge
between them, because close arrays are compared by position only. The
claim (pairs without overlapping dates are skipped) is false of the
code. -/
theorem c2_counterexample :
    disjointDates c2A c2B = true ∧
      ("AAA", "BBB") ∈ simEdges 3 (1 / 5) (simInput (linkStage [c2A, c2B])) := by
  refine ⟨by decide, ?_⟩
  have hCA : closeArray c2A.days = [1, 2, 3] := by decide
  have hCB : closeArray c2B.days = [2, 4, 6] := by decide
  have hcorr : pearsonAbsGe (1 / 5) (closeArray c2A.days) (closeArray c2B.days) = true := by
    rw [hCA, hCB]
    norm_num [pearsonAbsGe, varTerm, covTerm, dotQ, sumQ]
  have hsim : simInput (linkStage [c2A, c2B]) =
      [⟨c2A.name, closeArray c2A.days⟩, ⟨c2B.name, closeArray c2B.days⟩] := rfl
  rw [hsim]
  have hpeers := topKPeers_pair 3 (1 / 5) (by omega)
    ⟨c2A.name, closeArray c2A.days⟩ ⟨c2B.name, closeArray c2B.days⟩ (by decide) hcorr
  exact mem_simEdges_of 3 (1 / 5) _ _ _ (List.mem_cons_self _ _)
    (by rw [hpeers]; exact List.mem_cons_self _ _)

/-- C2 (amended): the similarity stage hands the procedure only per-ticker
date-sorted close arrays, so correlation is computed position by position;
a pair of tickers with no overlapping dates is not skipped: whenever the
positional correlation test passes the cutoff, the edge is produced all
the same. -/
theorem c2_positional_no_skip (cutoff : ℚ) (topK : Nat) (hk : 1 ≤ topK)
    (a b : SStock) (hab : b.name ≠ a.name)
    (hdisj : disjointDates a b = true)
    (hcorr : pearsonAbsGe cutoff (closeArray a.days) (closeArray b.days) = true) :
    (a.name, b.name) ∈ simEdges topK cutoff (simInput (linkStage [a, b])) := by
  have hsim : simInput (linkStage [a, b]) =
      [⟨a.name, closeArray a.days⟩, ⟨b.name, closeArray b.days⟩] := rfl
  rw [hsim]
  have hpeers : topKPeers topK cutoff
      [⟨a.name, closeArray a.days⟩, ⟨b.name, closeArray b.days⟩]
      ⟨a.name, closeArray a.days⟩ = [⟨b.name, closeArray b.days⟩] :=
    topKPeers_pair topK cutoff hk _ _ hab hcorr
  have := mem_simEdges_of topK cutoff
    [⟨a.name, closeArray a.days⟩, ⟨b.name, closeArray b.days⟩]
    ⟨a.name, closeArray a.days⟩ ⟨b.name, closeArray b.days⟩
    (List.mem_cons_self _ _) (by rw [hpeers]; exact List.mem_cons_self _ _)
  exact this

/-- C2 witness: the amended statement evaluated on the concrete
disjoint-date tickers c2A and c2B with the notebook parameters. -/
theorem c2_positional_no_skip_witness :
    1 ≤ 3 ∧ ("BBB" : String) ≠ "AAA" ∧ disjointDates c2A c2B = true ∧
      pearsonAbsGe (1 / 5) (closeArray c2A.days) (closeArray c2B.days) = true ∧
      ("AAA", "BBB") ∈ simEdges 3 (1 / 5) (simInput (linkStage [c2A, c2B])) := by
  have hCA : closeArray c2A.days = [1, 2, 3] := by decide
  have hCB : closeArray c2B.days = [2, 4, 6] := by decide
  have hcorr : pearsonAbsGe (1 / 5) (closeArray c2A.days) (closeArray c2B.days) = true := by
    rw [hCA, hCB]
    norm_num [pearsonAbsGe, varTerm, covTerm, dotQ, sumQ]
  exact ⟨by omega, by decide, by decide, hcorr,
    c2_positional_no_skip (1 / 5) 3 (by omega) c2A c2B (by decide) (by decide) hcorr⟩

/-! C3: invariants of the top-K similarity selection. -/

/-- Counting edges of the flat-mapped edge list whose first component is a
given member, when every generated edge starts at its generator and the
generating names are distinct. -/
theorem filter_flatMap_first (l : List SimItem) (g : SimItem → List (String × String))
    (hg : ∀ x ∈ l, ∀ e ∈ g x, e.1 = x.item)
    (s : SimItem) (hs : s ∈ l) (hnd : (l.map (fun x => x.item)).Nodup) :
    ((l.flatMap g).filter (fun e => e.1 == s.item)).length =
      ((g s).filter (fun e => e.1 == s.item)).length := by
  induction l with
  | nil => cases hs
  | cons x xs ih =>
    simp only [List.map_cons, List.nodup_cons] at hnd
    rw [List.flatMap_cons, List.filter_append, List.length_append]
    rcases List.mem_cons.1 hs with rfl | hs2
    · have hzero : (xs.flatMap g).filter (fun e => e.1 == s.item) = [] := by
        rw [List.filter_eq_nil_iff]
        intro e he
        obtain ⟨y, hy, hey⟩ := List.mem_flatMap.1 he
        have h1 : e.1 = y.item := hg y (List.mem_cons_of_mem _ hy) e hey
        have h2 : y.item ≠ s.item := by
          intro hcontra
          exact hnd.1 (hcontra ▸ List.mem_map_of_mem _ hy)
        simp [h1, h2]
      rw [hzero]
      simp
    · have hx_ne : x.item ≠ s.item := by
        intro hcontra
        exact hnd.1 (by rw [hcontra]; exact List.mem_map_of_mem _ hs2)
      have hzero : (g x).filter (fun e => e.1 == s.item) = [] := by
        rw [List.filter_eq_nil_iff]
        intro e he
        have h1 : e.1 = x.item := hg x (List.mem_cons_self _ _) e he
        simp [h1, hx_ne]
      rw [hzero]
      simp only [List.length_nil, Nat.zero_add]
      exact ih (fun y hy => hg y (List.mem_cons_of_mem _ hy)) hs2 hnd.2

/-- C3: in the similarity graph, no edge is a self-edge; every kept peer of a
ticker differs from it and passes the cutoff test on correlation
magnitude; a ticker keeps at most topK peers of its own; and, when ticker
names are distinct, the number of edges a ticker emits from its own
selection is at most topK. -/
theorem c3_similarity_invariants (topK : Nat) (cutoff : ℚ) (all : List SimItem) :
    (∀ e ∈ simEdges topK cutoff all, e.1 ≠ e.2) ∧
      (∀ s ∈ all, (topKPeers topK cutoff all s).length ≤ topK ∧
        ∀ t ∈ topKPeers topK cutoff all s,
          t.item ≠ s.item ∧ pearsonAbsGe cutoff s.weights t.weights = true) ∧
      ((all.map (fun x => x.item)).Nodup → ∀ s ∈ all,
        ((simEdges topK cutoff all).filter (fun e => e.1 == s.item)).length ≤ topK) := by
  have hmem : ∀ s, ∀ t ∈ topKPeers topK cutoff all s,
      t.item ≠ s.item ∧ pearsonAbsGe cutoff s.weights t.weights = true := by
    intro s t ht
    have ht2 := (List.take_sublist _ _).subset ht
    have ht4 := List.mem_filter.1 ((List.perm_insertionSort _ _).subset ht2)
    obtain ⟨_, hcond⟩ := ht4
    rw [Bool.and_eq_true] at hcond
    exact ⟨bne_iff_ne.1 hcond.1, hcond.2⟩
  refine ⟨?_, ?_, ?_⟩
  · intro e he
    obtain ⟨s, hs, he2⟩ := List.mem_flatMap.1 he
    obtain ⟨t, ht, rfl⟩ := List.mem_map.1 he2
    exact fun hcontra => (hmem s t ht).1 hcontra.symm
  · intro s hs
    exact ⟨List.length_take_le _ _, fun t ht => hmem s t ht⟩
  · intro hnd s hs
    have hg : ∀ x ∈ all, ∀ e ∈ (fun u => (topKPeers topK cutoff all u).map
        (fun t => (u.item, t.item))) x, e.1 = x.item := by
      intro x hx e he
      obtain ⟨t, ht, rfl⟩ := List.mem_map.1 he
      rfl
    rw [simEdges, filter_flatMap_first all _ hg s hs hnd]
    have hle1 : (((topKPeers topK cutoff all s).map
          (fun t => (s.item, t.item))).filter (fun e => e.1 == s.item)).length ≤
        ((topKPeers topK cutoff all s).map (fun t => (s.item, t.item))).length :=
      List.length_filter_le _ _
    have hle2 : ((topKPeers topK cutoff all s).map
        (fun t => (s.item, t.item))).length = (topKPeers topK cutoff all s).length :=
      List.length_map _ _
    have hle3 : (topKPeers topK cutoff all s).length ≤ topK :=
      List.length_take_le _ _
    omega

/-- C3 witness: the invariants evaluated on a concrete three-ticker universe
with the notebook parameters; the edge from AAA to BBB is present. -/
theorem c3_similarity_invariants_witness :
    (("AAA", "BBB") ∈ simEdges 3 (1 / 5) c3items) ∧
      ("AAA", "BBB").1 ≠ ("AAA", "BBB").2 ∧
      (topKPeers 3 (1 / 5) c3items c3A).length ≤ 3 ∧
      ((simEdges 3 (1 / 5) c3items).filter (fun e => e.1 == c3A.item)).length ≤ 3 := by
  have hAB : pearsonAbsGe ((5 : ℚ)⁻¹) [1, 2, 3] [2, 4, 6] = true := by
    norm_num [pearsonAbsGe, varTerm, covTerm, dotQ, sumQ]
  have hAC : pearsonAbsGe ((5 : ℚ)⁻¹) [1, 2, 3] [1, 1, 1] = false := by
    norm_num [pearsonAbsGe, varTerm, covTerm, dotQ, sumQ]
  have hBA : pearsonAbsGe ((5 : ℚ)⁻¹) [2, 4, 6] [1, 2, 3] = true := by
    norm_num [pearsonAbsGe, varTerm, covTerm, dotQ, sumQ]
  have hBC : pearsonAbsGe ((5 : ℚ)⁻¹) [2, 4, 6] [1, 1, 1] = false := by
    norm_num [pearsonAbsGe, varTerm, covTerm, dotQ, sumQ]
  have hCA : pearsonAbsGe ((5 : ℚ)⁻¹) [1, 1, 1] [1, 2, 3] = false := by
    norm_num [pearsonAbsGe, varTerm, covTerm, dotQ, sumQ]
  have hCB : pearsonAbsGe ((5 : ℚ)⁻¹) [1, 1, 1] [2, 4, 6] = false := by
    norm_num [pearsonAbsGe, varTerm, covTerm, dotQ, sumQ]
  have hedges : simEdges 3 (1 / 5) c3items = [("AAA", "BBB"), ("BBB", "AAA")] := by
    simp [simEdges, c3items, topKPeers, c3A, c3B, c3C, List.filter_cons,
      hAB, hAC, hBA, hBC, hCA, hCB]
  have hmem : ("AAA", "BBB") ∈ simEdges 3 (1 / 5) c3items := by
    rw [hedges]
    exact List.mem_cons_self _ _
  refine ⟨hmem, ?_, ?_, ?_⟩
  · exact (c3_similarity_invariants 3 (1 / 5) c3items).1 ("AAA", "BBB") hmem
  · exact ((c3_similarity_invariants 3 (1 / 5) c3items).2.1 c3A (by decide)).1
  · exact (c3_similarity_invariants 3 (1 / 5) c3items).2.2 (by decide) c3A (by decide)

/-! C5: error handling of the ingestion query. -/

/-- C5 counterexample: a duplicate (ticker, date) pair does not keep only the
first occurrence: both rows create StockTradingDay nodes, with no warning
mechanism; and a row with an unparsable date does not let the batch
continue: it aborts the whole load, so nothing counts rejected rows. -/
theorem c5_counterexample :
    ingest ⟨[], []⟩ [⟨"A", some 1, some 5, some 7⟩, ⟨"A", some 1, some 5, some 7⟩] =
        Except.ok ⟨["A"], [⟨"A", 1, some 5, some 7⟩, ⟨"A", 1, some 5, some 7⟩]⟩ ∧
      ingest ⟨[], []⟩ [⟨"A", none, some 5, some 7⟩, ⟨"B", some 2, some 5, some 7⟩] =
        Except.error "InvalidArgumentException: date" :=
  ⟨rfl, rfl⟩

/-- C5 (amended): when every row has a parsable date the load succeeds and
creates one StockTradingDay node per input row — duplicates of a (ticker,
date) pair included, and rows with non-numeric close or volume included
(they get a null property instead of being rejected); a row with an
unparsable date aborts the load with an error rather than being skipped
and counted. -/
theorem c5_ingest_amended (g : GraphSt) (rows : List CsvRow) :
    ((∀ r ∈ rows, r.date ≠ none) →
      ∃ g2, ingest g rows = Except.ok g2 ∧
        g2.days.length = g.days.length + rows.length) ∧
      ∀ r rest, r.date = none →
        ingest g (r :: rest) = Except.error "InvalidArgumentException: date" := by
  constructor
  · induction rows generalizing g with
    | nil => exact fun _ => ⟨g, rfl, by simp⟩
    | cons r rest ih =>
      intro hval
      match hr : r.date with
      | none => exact absurd hr (hval r (List.mem_cons_self _ _))
      | some d =>
        obtain ⟨g2, hg2, hlen⟩ :=
          ih ⟨if r.name ∈ g.stocks then g.stocks else g.stocks ++ [r.name],
              g.days ++ [⟨r.name, d, r.close, r.volume⟩]⟩
            (fun x hx => hval x (List.mem_cons_of_mem _ hx))
        refine ⟨g2, ?_, ?_⟩
        · simpa [ingest, ingestRow, hr] using hg2
        · rw [hlen]
          simp [List.length_append]
          omega
  · intro r rest hr
    simp [ingest, ingestRow, hr]

/-- C5 witness: the amended statement evaluated on two concrete duplicate
rows (the second with a non-numeric close) and on a bad-date row. -/
theorem c5_ingest_amended_witness :
    (∃ g2, ingest (GraphSt.mk [] []) c5rows = Except.ok g2 ∧
        g2.days.length = (GraphSt.mk [] []).days.length + c5rows.length) ∧
      ingest (GraphSt.mk [] []) (⟨"A", none, some 5, some 7⟩ :: []) =
        Except.error "InvalidArgumentException: date" :=
  ⟨(c5_ingest_amended (GraphSt.mk [] []) c5rows).1 (by decide),
    (c5_ingest_amended (GraphSt.mk [] []) c5rows).2 ⟨"A", none, some 5, some 7⟩ [] rfl⟩

/-! C6: tickers with fewer than two trading days in the trend stage. -/

/-- The variance term of the empty vector vanishes. -/
theorem varTerm_nil : varTerm [] = 0 := by
  simp [varTerm, dotQ, sumQ]

/-- The variance term of a one-element vector vanishes. -/
theorem varTerm_single (x : ℚ) : varTerm [x] = 0 := by
  simp [varTerm, dotQ, sumQ]
  ring

/-- C6 counterexample: for a stock with a single trading day the trend stage
stores the undefined regression result (none, the NaN of the real
procedure), not 0.0, and changes nothing else about the record — there is
no flag, exclusion mark or reported error. The claim (slope defaults to
0.0 and the ticker is flagged) is false of the code. -/
theorem c6_counterexample :
    trendStage [c6stock] = [{ c6stock with slope := none }] ∧
      regrSlope (regrPoints c6stock.days) ≠ some 0 := by
  have h0 : regrSlope (regrPoints c6stock.days) = none := by
    have hpts : regrPoints c6stock.days = [(((0 : ℕ) : ℚ), 5)] := rfl
    rw [hpts]
    simp [regrSlope, varTerm_single]
  exact ⟨by simp [trendStage, h0], by simp [h0]⟩

/-- C6 (amended): for a ticker with fewer than two trading days the
regression is undefined: the trend stage stores no finite slope (none
here, NaN in the real system) rather than 0.0, writes no flag and leaves
every other field unchanged, and the stage still completes for all
stocks. -/
theorem c6_short_ticker (stocks : List SStock) (s : SStock)
    (hs : s ∈ stocks) (hshort : s.days.length < 2) :
    regrSlope (regrPoints s.days) = none ∧
      { s with slope := none } ∈ trendStage stocks ∧
      (trendStage stocks).length = stocks.length := by
  have hslope : regrSlope (regrPoints s.days) = none := by
    rcases hds : s.days with _ | ⟨d1, rest⟩
    · simp [regrSlope, regrPoints, varTerm, dotQ, sumQ]
    · rcases rest with _ | ⟨d2, rest2⟩
      · simp [regrSlope, regrPoints, varTerm_single]
      · rw [hds] at hshort
        simp [List.length_cons] at hshort
        omega
  refine ⟨hslope, ?_, List.length_map _ _⟩
  have hmem2 : { s with slope := regrSlope (regrPoints s.days) } ∈ trendStage stocks :=
    List.mem_map_of_mem _ hs
  rwa [hslope] at hmem2

/-- C6 witness: the amended statement evaluated on the concrete one-day
stock. -/
theorem c6_short_ticker_witness :
    c6stock ∈ [c6stock] ∧ c6stock.days.length < 2 ∧
      (regrSlope (regrPoints c6stock.days) = none ∧
        { c6stock with slope := none } ∈ trendStage [c6stock] ∧
        (trendStage [c6stock]).length = [c6stock].length) :=
  ⟨by decide, by decide, c6_short_ticker [c6stock] c6stock (by decide) (by decide)⟩

/-! C9: the close_array property and the similarity input. -/

/-- C9: for every stock, the stage-2 preparation stores as close_array its
closing prices read off in date-ascending order (a sorted permutation of
its trading days, full length), and the similarity input for that stock
carries exactly this array as its weights vector. -/
theorem c9_close_array_positional (stocks : List SStock) (s : SStock)
    (hs : s ∈ stocks) :
    (⟨s.name, closeArray s.days⟩ : SimItem) ∈ simInput (linkStage stocks) ∧
      closeArray s.days = (sortDays s.days).map (fun d => d.close) ∧
      List.Perm (sortDays s.days) s.days ∧
      (sortDays s.days).Pairwise (fun a b => a.date ≤ b.date) ∧
      (closeArray s.days).length = s.days.length := by
  refine ⟨?_, rfl, sortDays_perm _, List.sorted_insertionSort _ _, ?_⟩
  · have h1 : { s with close_array := some (closeArray s.days) } ∈ linkStage stocks :=
      List.mem_map_of_mem _ hs
    exact List.mem_map.2 ⟨_, h1, rfl⟩
  · rw [closeArray, List.length_map, sortDays_length]

/-! C8: what the later stages write on the ingested records. -/

/-- The composed stages 2-5 as a single map over the stocks. -/
theorem pipeline_eq_map (comm : String → Nat) (stocks : List SStock) :
    pipelineAfterIngest comm stocks = stocks.map (fun s =>
      { name := s.name,
        days := indexDays (s.days.map (fun d => { d with secondLabel := some s.name })),
        close_array := some (closeArray s.days),
        louvain := some (comm s.name),
        slope := regrSlope (regrPoints
          (indexDays (s.days.map (fun d => { d with secondLabel := some s.name })))) }) := by
  simp only [pipelineAfterIngest, trendStage, indexStage, addLabelsStage, louvainStage,
    linkStage, List.map_map]
  rfl

/-- C8 counterexample: already the stage-2 preparation mutates a Ticker
attribute other than slope and communityId (it writes close_array), and
the stage-4 preparation mutates a TradingDay attribute (it writes index);
the claim that no other attribute of a Ticker or TradingDay changes in
stages 2-5 is false of the code. -/
theorem c8_counterexample :
    (linkStage [c8stock]).map (fun s => s.close_array) ≠ [c8stock.close_array] ∧
      (indexStage [c8stock]).map (fun s => s.days.map (fun d => d.index)) ≠
        [c8stock.days.map (fun d => d.index)] := by
  exact ⟨by decide, by decide⟩

/-- C8 (amended): after ingestion the later stages write close_array on each
Ticker (stage-2 preparation), a per-ticker secondary label and the index
on each TradingDay (stage-4 preparation), the community id (stage 3) and
the slope (stage 4) — and nothing else: the name and the (date, close,
volume) contents of the trading days are preserved through the whole
pipeline. -/
theorem c8_frame_amended (comm : String → Nat) (stocks : List SStock)
    (s : SStock) (hs : s ∈ stocks) :
    ∃ s2, s2 ∈ pipelineAfterIngest comm stocks ∧
      s2.name = s.name ∧
      s2.days = indexDays (s.days.map (fun d => { d with secondLabel := some s.name })) ∧
      List.Perm (s2.days.map (fun d => (d.date, d.close, d.volume)))
        (s.days.map (fun d => (d.date, d.close, d.volume))) ∧
      s2.close_array = some (closeArray s.days) ∧
      s2.louvain = some (comm s.name) ∧
      s2.slope = regrSlope (regrPoints s2.days) := by
  rw [pipeline_eq_map]
  refine ⟨_, List.mem_map_of_mem _ hs, rfl, rfl, ?_, rfl, rfl, rfl⟩
  have h1 : (indexDays (s.days.map (fun d => { d with secondLabel := some s.name }))).map
      (fun d => (d.date, d.close, d.volume)) =
      (sortDays (s.days.map (fun d => { d with secondLabel := some s.name }))).map
        (fun d => (d.date, d.close, d.volume)) := assignIdx_map_core 0 _
  have h3 : (s.days.map (fun d => { d with secondLabel := some s.name })).map
      (fun d => (d.date, d.close, d.volume)) =
      s.days.map (fun d => (d.date, d.close, d.volume)) := by
    rw [List.map_map]
    rfl
  rw [h1, ← h3]
  exact (sortDays_perm _).map _

/-- C8 witness: the amended statement evaluated on the concrete one-day stock
with a constant community assignment. -/
theorem c8_frame_amended_witness :
    c8stock ∈ [c8stock] ∧
      ∃ s2, s2 ∈ pipelineAfterIngest (fun _ => 7) [c8stock] ∧
        s2.name = c8stock.name ∧
        s2.days = indexDays (c8stock.days.map
          (fun d => { d with secondLabel := some c8stock.name })) ∧
        List.Perm (s2.days.map (fun d => (d.date, d.close, d.volume)))
          (c8stock.days.map (fun d => (d.date, d.close, d.volume))) ∧
        s2.close_array = some (closeArray c8stock.days) ∧
        s2.louvain = some 7 ∧
        s2.slope = regrSlope (regrPoints s2.days) :=
  ⟨by decide, c8_frame_amended (fun _ => 7) [c8stock] c8stock (by decide)⟩

/-! C10: re-running the ingestion query. -/

/-- A successful load creates exactly one StockTradingDay node per row. -/
theorem ingest_ok_days_len : ∀ (rows : List CsvRow) (g g2 : GraphSt),
    ingest g rows = Except.ok g2 → g2.days.length = g.days.length + rows.length := by
  intro rows
  induction rows with
  | nil =>
    intro g g2 h
    simp [ingest] at h
    subst h
    simp
  | cons r rest ih =>
    intro g g2 h
    match hr : r.date with
    | none => simp [ingest, ingestRow, hr] at h
    | some d =>
      simp only [ingest, ingestRow, hr] at h
      have hlen := ih _ _ h
      simp [List.length_append] at hlen
      simp [List.length_cons]
      omega

/-- A successful load had a parsable date in every row. -/
theorem ingest_ok_dates : ∀ (rows : List CsvRow) (g g2 : GraphSt),
    ingest g rows = Except.ok g2 → ∀ r ∈ rows, r.date ≠ none := by
  intro rows
  induction rows with
  | nil => intro g g2 h r hr; cases hr
  | cons r rest ih =>
    intro g g2 h x hx
    match hr : r.date with
    | none => simp [ingest, ingestRow, hr] at h
    | some d =>
      simp only [ingest, ingestRow, hr] at h
      rcases List.mem_cons.1 hx with rfl | hx2
      · simp [hr]
      · exact ih _ _ h x hx2

/-- The MERGE clause never removes a Stock node. -/
theorem ingest_stocks_mono : ∀ (rows : List CsvRow) (g g2 : GraphSt),
    ingest g rows = Except.ok g2 → ∀ x ∈ g.stocks, x ∈ g2.stocks := by
  intro rows
  induction rows with
  | nil =>
    intro g g2 h x hx
    simp [ingest] at h
    subst h
    exact hx
  | cons r rest ih =>
    intro g g2 h x hx
    match hr : r.date with
    | none => simp [ingest, ingestRow, hr] at h
    | some d =>
      simp only [ingest, ingestRow, hr] at h
      refine ih _ _ h x ?_
      by_cases hmem : r.name ∈ g.stocks
      · simpa [hmem] using hx
      · simp [hmem]
        exact Or.inl hx

/-- After a successful load every row's ticker has a Stock node. -/
theorem ingest_ok_row_names : ∀ (rows : List CsvRow) (g g2 : GraphSt),
    ingest g rows = Except.ok g2 → ∀ r ∈ rows, r.name ∈ g2.stocks := by
  intro rows
  induction rows with
  | nil => intro g g2 h r hr; cases hr
  | cons r rest ih =>
    intro g g2 h x hx
    match hr : r.date with
    | none => simp [ingest, ingestRow, hr] at h
    | some d =>
      simp only [ingest, ingestRow, hr] at h
      rcases List.mem_cons.1 hx with rfl | hx2
      · refine ingest_stocks_mono rest _ _ h x.name ?_
        by_cases hmem : x.name ∈ g.stocks
        · simp [hmem]
        · simp [hmem]
      · exact ih _ _ h x hx2

/-- A load whose tickers all have Stock nodes already leaves the Stock set
unchanged and appends one StockTradingDay node per row. -/
theorem ingest_stable : ∀ (rows : List CsvRow) (g : GraphSt),
    (∀ r ∈ rows, r.name ∈ g.stocks) → (∀ r ∈ rows, r.date ≠ none) →
    ∃ g2, ingest g rows = Except.ok g2 ∧ g2.stocks = g.stocks ∧
      g2.days.length = g.days.length + rows.length := by
  intro rows
  induction rows with
  | nil => exact fun g _ _ => ⟨g, rfl, rfl, by simp⟩
  | cons r rest ih =>
    intro g hnames hdates
    match hr : r.date with
    | none => exact absurd hr (hdates r (List.mem_cons_self _ _))
    | some d =>
      have hmem : r.name ∈ g.stocks := hnames r (List.mem_cons_self _ _)
      obtain ⟨g2, hok, hst, hlen⟩ :=
        ih ⟨g.stocks, g.days ++ [⟨r.name, d, r.close, r.volume⟩]⟩
          (fun x hx => hnames x (List.mem_cons_of_mem _ hx))
          (fun x hx => hdates x (List.mem_cons_of_mem _ hx))
      refine ⟨g2, ?_, hst, ?_⟩
      · simpa [ingest, ingestRow, hr, hmem] using hok
      · simp [List.length_append] at hlen
        simp [List.length_cons]
        omega

/-- C10: the ingestion query is not idempotent on trading days. A first run
on an empty graph creates one StockTradingDay node per input row
(duplicates included); a second run on the same input leaves the Stock
set unchanged (MERGE) but doubles the StockTradingDay node count
(CREATE). -/
theorem c10_ingest_not_idempotent (rows : List CsvRow) (g1 : GraphSt)
    (h1 : ingest ⟨[], []⟩ rows = Except.ok g1) :
    g1.days.length = rows.length ∧
      ∃ g2, ingest g1 rows = Except.ok g2 ∧ g2.stocks = g1.stocks ∧
        g2.days.length = 2 * g1.days.length := by
  have hlen := ingest_ok_days_len rows ⟨[], []⟩ g1 h1
  simp at hlen
  have hnames := ingest_ok_row_names rows ⟨[], []⟩ g1 h1
  have hdates := ingest_ok_dates rows ⟨[], []⟩ g1 h1
  obtain ⟨g2, hok, hst, hlen2⟩ := ingest_stable rows g1 hnames hdates
  exact ⟨hlen, g2, hok, hst, by omega⟩

/-- C10 witness: the statement evaluated on two identical concrete rows. -/
theorem c10_ingest_not_idempotent_witness :
    ingest (GraphSt.mk [] []) c10rows = Except.ok c10g1 ∧
      (c10g1.days.length = c10rows.length ∧
        ∃ g2, ingest c10g1 c10rows = Except.ok g2 ∧ g2.stocks = c10g1.stocks ∧
          g2.days.length = 2 * c10g1.days.length) :=
  ⟨rfl, c10_ingest_not_idempotent c10rows c10g1 rfl⟩

/-- C9 witness: the close_array invariant evaluated on a concrete two-stock
state. -/
theorem c9_close_array_positional_witness :
    c9s1 ∈ c9stocks ∧
      ((⟨c9s1.name, closeArray c9s1.days⟩ : SimItem) ∈ simInput (linkStage c9stocks) ∧
        closeArray c9s1.days = (sortDays c9s1.days).map (fun d => d.close) ∧
        List.Perm (sortDays c9s1.days) c9s1.days ∧
        (sortDays c9s1.days).Pairwise (fun a b => a.date ≤ b.date) ∧
        (closeArray c9s1.days).length = c9s1.days.length) :=
  ⟨by decide, c9_close_array_positional c9stocks c9s1 (by decide)⟩

end StockDiv
